import Mathlib

/-!
Shallow embedding of the PRPromise combinator algebra of
src/core/PRPromise.js (package dcs-branch-merger), with proofs of the
properties its specification states about the algebra.

A JavaScript Promise settles exactly once: fulfilled with a value or
rejected; in this module rejections carry no payload, since every
rejection originates from Promise.reject with no argument.  All the
combinators chain promises strictly sequentially with .then and .catch,
so a promise is modelled as a function from the trace of leaf-effect
invocations performed so far to the settled outcome paired with the
extended trace.  The trace makes invocation order, and facts of the form
"this effect is never invoked", observable inside the model: an effect
that is run appends its labels to the trace, so an outcome whose trace
lacks those labels shows the effect never ran.

JS null is modelled as Option.none at value type Option beta where the
null check of forEveryFirst matters; environments handed to
extendConfig, which JS spreads as objects, are modelled as partial maps
from field names to values.
-/

namespace PRP

/-- Settled outcome of a promise: fulfilled with a value, or rejected.
Rejections in PRPromise.js carry no payload (bare Promise.reject). -/
inductive Settled (α : Type) where
  | ok (a : α)
  | failed
  deriving DecidableEq

/-- Trace of observable leaf-effect invocations, in execution order. -/
abbrev Trace := List String

/-- A promise computation: given the trace of invocations so far, it
settles, yielding an outcome and the trace after settlement. -/
abbrev Promise (α : Type) : Type := Trace → Settled α × Trace

variable {α β : Type} {ρ : Type} {V : Type}

/-- Promise.resolve a : settle immediately with the value, touching nothing. -/
def presolve (a : α) : Promise α := fun t => (Settled.ok a, t)

/-- Promise.reject() : settle immediately as failed, with no payload. -/
def preject : Promise α := fun t => (Settled.failed, t)

/-- p.then(f), for a handler f returning a promise: on fulfilment run the
handler on the value, on rejection propagate the rejection unchanged. -/
def pthen (p : Promise α) (f : α → Promise β) : Promise β := fun t =>
  match p t with
  | (Settled.ok a, t') => f a t'
  | (Settled.failed, t') => (Settled.failed, t')

/-- p.catch(h): on fulfilment propagate, on rejection run the handler. -/
def pcatch (p : Promise α) (h : Unit → Promise α) : Promise α := fun t =>
  match p t with
  | (Settled.ok a, t') => (Settled.ok a, t')
  | (Settled.failed, t') => h () t'

/-- The PRPromise type of the source: PRPromise R A = (r : R) => Promise A. -/
abbrev PRPromise (ρ α : Type) : Type := ρ → Promise α

/-- Source: map = (fn, pr) => r => pr(r).then(a => fn(a)). -/
def map (fn : α → β) (pr : PRPromise ρ α) : PRPromise ρ β :=
  fun r => pthen (pr r) (fun a => presolve (fn a))

/-- Source: pure = (a) => (_) => Promise.resolve(a). -/
def pure (a : α) : PRPromise ρ α := fun _ => presolve a

/-- Source: then = (pr, ...fns) => r =>
fns.reduce((accPr, f) => accPr.then(b => f(b)(r)), pr(r)).
`then` is a Lean keyword, hence the name thenPR.  The variadic, untyped
continuation list of JS is modelled as a Lean list of continuations at a
single value type. -/
def thenPR (pr : PRPromise ρ α) (fns : List (α → PRPromise ρ α)) : PRPromise ρ α :=
  fun r => fns.foldl (fun accPr f => pthen accPr (fun b => f b r)) (pr r)

/-- Source: empty = () => Promise.reject().  In JS, `empty` itself is used
as the effect (the environment argument is simply ignored by arity), so it
is modelled as the effect that ignores its environment and rejects. -/
def empty : PRPromise ρ α := fun _ => preject

/-- Source: or = (pr1, pr2) => (r) => pr1(r).catch(() => pr2(r)). -/
def or (pr1 pr2 : PRPromise ρ α) : PRPromise ρ α :=
  fun r => pcatch (pr1 r) (fun _ => pr2 r)

/-- Source: chain = (f, g) => (a) => then(f(a), g). -/
def chain (f : α → PRPromise ρ β) (g : β → PRPromise ρ β) : α → PRPromise ρ β :=
  fun a => thenPR (f a) [g]

/-- Source, local to forEveryFirst:
rejectOnNull = (a) => a === null ? empty : pure(a). -/
def rejectOnNull : Option β → PRPromise ρ (Option β) := fun a =>
  match a with
  | Option.none => empty
  | Option.some _ => PRP.pure a

/-- Source: forEveryFirst = (f, xs) =>
xs.reduce((p, x) => or(p, then(f(x), rejectOnNull)), empty). -/
def forEveryFirst (f : α → PRPromise ρ (Option β)) (xs : List α) : PRPromise ρ (Option β) :=
  xs.foldl (fun p x => PRP.or p (thenPR (f x) [rejectOnNull])) empty

/-- Source: when = (f, a) => (r) => f(r) ? pure(a)(r) : empty(r). -/
def when (f : ρ → Bool) (a : α) : PRPromise ρ α :=
  fun r => if f r then PRP.pure a r else empty r

/-- A JS object used as an environment record: a partial map from field
names to values. -/
abbrev Obj (V : Type) : Type := String → Option V

/-- The JS object spread that extendConfig performs on its environment:
the spread of c over r, where fields of c win on collision and all other
fields come from r. -/
def jsSpread (r c : Obj V) : Obj V := fun k =>
  match c k with
  | Option.some v => Option.some v
  | Option.none => r k

/-- Source: extendConfig = (c, p) => (r) => p(spread of r then c). -/
def extendConfig (c : Obj V) (p : PRPromise (Obj V) α) : PRPromise (Obj V) α :=
  fun r => p (jsSpread r c)

/-- Modelled from the spec: the reference semantics the spec gives for
forEveryFirst — try f on each item in list order; a success with a
non-null value settles the search with that value; a failure or a null
success moves on to the next item; an exhausted (or empty) list fails. -/
def forEveryFirstSpec (f : α → PRPromise ρ (Option β)) : List α → PRPromise ρ (Option β)
  | [] => fun _r => preject
  | x :: xs => fun r t =>
    match f x r t with
    | (Settled.ok (Option.some b), t') => (Settled.ok (Option.some b), t')
    | (Settled.ok Option.none, t') => forEveryFirstSpec f xs r t'
    | (Settled.failed, t') => forEveryFirstSpec f xs r t'

/-- Running the fold inside forEveryFirst from an arbitrary accumulator p:
if p settles fulfilled, its outcome stands; if p settles failed, the
remaining items are searched per the reference semantics, continuing from
the trace p left behind. -/
theorem foldl_or_attempt (f : α → PRPromise ρ (Option β)) (xs : List α)
    (p : PRPromise ρ (Option β)) (r : ρ) (t : Trace) :
    (xs.foldl (fun p x => PRP.or p (thenPR (f x) [rejectOnNull])) p) r t =
      match p r t with
      | (Settled.ok a, t') => (Settled.ok a, t')
      | (Settled.failed, t') => forEveryFirstSpec f xs r t' := by
  induction xs generalizing p with
  | nil =>
    cases hp : p r t with
    | mk s t' =>
      cases s <;> simp [List.foldl, hp, forEveryFirstSpec, preject]
  | cons x xs ih =>
    rw [List.foldl_cons, ih]
    cases hp : p r t with
    | mk s t1 =>
      cases s with
      | ok a => simp [PRP.or, pcatch, hp]
      | failed =>
        cases hf : f x r t1 with
        | mk s2 t2 =>
          cases s2 with
          | ok b =>
            cases b <;>
              simp [PRP.or, pcatch, hp, thenPR, List.foldl, pthen, hf,
                rejectOnNull, PRP.pure, presolve, PRP.empty, preject,
                forEveryFirstSpec]
          | failed =>
            simp [PRP.or, pcatch, hp, thenPR, List.foldl, pthen, hf,
              forEveryFirstSpec]

/-- The source forEveryFirst agrees with the reference semantics
forEveryFirstSpec everywhere. -/
theorem forEveryFirst_eq_spec (f : α → PRPromise ρ (Option β)) (xs : List α)
    (r : ρ) (t : Trace) :
    forEveryFirst f xs r t = forEveryFirstSpec f xs r t := by
  rw [forEveryFirst, foldl_or_attempt]
  simp [PRP.empty, preject]

/-- Claim C1: for every function f, list xs and environment r, running
forEveryFirst f xs with r tries f on the items in list order, succeeds
with the first non-null success, and fails whenever every item fails or
yields null — including when xs is empty.  This is stated as agreement
with the reference semantics forEveryFirstSpec, whose recursion is
literally "try the head; a non-null success settles, a failure or null
success moves to the tail; the empty list fails", together with the
empty-list case spelled out. -/
theorem forEveryFirst_first_nonnull (f : α → PRPromise ρ (Option β))
    (xs : List α) (r : ρ) (t : Trace) :
    forEveryFirst f xs r t = forEveryFirstSpec f xs r t ∧
    forEveryFirst f ([] : List α) r t = (Settled.failed, t) := by
  exact ⟨forEveryFirst_eq_spec f xs r t, rfl⟩

/-- Claim C2: pure a, run with any environment, ignores the environment
and immediately succeeds with a; empty, run with any environment, ignores
the environment and immediately fails with no payload. -/
theorem pure_empty_behaviour (a : α) (r : ρ) (t : Trace) :
    PRP.pure a r t = (Settled.ok a, t) ∧
    (PRP.empty : PRPromise ρ α) r t = (Settled.failed, t) :=
  ⟨rfl, rfl⟩

/-- Claim C3: if e1 run with r succeeds with v, then or e1 e2 run with r
succeeds with v and contributes exactly e1's trace — e2 is never invoked,
as the outcome does not depend on the universally quantified e2 at all;
if e1 run with r fails, or e1 e2 run with r is exactly the outcome of e2
run with the same environment r (continuing from the trace e1 left). -/
theorem or_left_bias (e1 e2 : PRPromise ρ α) (r : ρ) (t : Trace) :
    (∀ v, (e1 r t).1 = Settled.ok v →
      PRP.or e1 e2 r t = (Settled.ok v, (e1 r t).2)) ∧
    ((e1 r t).1 = Settled.failed →
      PRP.or e1 e2 r t = e2 r (e1 r t).2) := by
  refine ⟨fun v hv => ?_, fun hf => ?_⟩
  · cases he : e1 r t with
    | mk s t1 =>
      rw [he] at hv
      cases s with
      | ok a =>
        simp only [Settled.ok.injEq] at hv
        subst hv
        simp [PRP.or, pcatch, he]
      | failed => simp at hv
  · cases he : e1 r t with
    | mk s t1 =>
      rw [he] at hf
      cases s with
      | ok a => simp at hf
      | failed => simp [PRP.or, pcatch, he]

/-- Witness for C3 at concrete effects: the left effect succeeds with 5
after logging "e1", the right one would log "e2"; the combined effect
succeeds with 5 and only "e1" is in the trace. -/
theorem or_left_bias_w :
    PRP.or (fun (_ : Unit) (t : Trace) => (Settled.ok 5, t ++ ["e1"]))
      (fun (_ : Unit) (t : Trace) => (Settled.failed, t ++ ["e2"])) () []
      = (Settled.ok 5, ["e1"]) := by
  have h := (or_left_bias (fun (_ : Unit) (t : Trace) => (Settled.ok 5, t ++ ["e1"]))
    (fun (_ : Unit) (t : Trace) => (Settled.failed, t ++ ["e2"])) () []).1 5 rfl
  simpa using h

/-- Claim C5: sequencing is associative — then(then(e, f), g) and
then(e, f, g) produce the identical outcome for every effect e,
continuations f and g, environment r and trace t. -/
theorem then_assoc (e : PRPromise ρ α) (f g : α → PRPromise ρ α)
    (r : ρ) (t : Trace) :
    thenPR (thenPR e [f]) [g] r t = thenPR e [f, g] r t := rfl

/-- Claim C6: then e with zero continuations runs exactly like e, and
map with the identity function runs exactly like e, for every
environment and trace. -/
theorem then_map_identity (e : PRPromise ρ α) (r : ρ) (t : Trace) :
    thenPR e [] r t = e r t ∧ PRP.map (fun x => x) e r t = e r t := by
  refine ⟨rfl, ?_⟩
  cases he : e r t with
  | mk s t1 => cases s <;> simp [PRP.map, pthen, presolve, he]

/-- Claim C10: or is associative — or (or e1 e2) e3 and
or e1 (or e2 e3) produce the identical outcome for all effects and
every environment and trace. -/
theorem or_assoc_outcome (e1 e2 e3 : PRPromise ρ α) (r : ρ) (t : Trace) :
    PRP.or (PRP.or e1 e2) e3 r t = PRP.or e1 (PRP.or e2 e3) r t := by
  cases h1 : e1 r t with
  | mk s1 t1 =>
    cases s1 with
    | ok a => simp [PRP.or, pcatch, h1]
    | failed =>
      cases h2 : e2 r t1 with
      | mk s2 t2 => cases s2 <;> simp [PRP.or, pcatch, h1, h2]

/-- Folding further continuations onto a promise that has already settled
failed changes nothing: no later handler is invoked and the failure, with
its trace, is the result. -/
theorem foldl_pthen_failed (q : Promise α) (fs : List (α → PRPromise ρ α))
    (r : ρ) (t : Trace) (h : (q t).1 = Settled.failed) :
    (fs.foldl (fun accPr f => pthen accPr (fun b => f b r)) q) t = q t := by
  induction fs generalizing q with
  | nil => rfl
  | cons f fs ih =>
    have hstep : (pthen q (fun b => f b r)) t = q t := by
      cases hq : q t with
      | mk s t1 =>
        rw [hq] at h
        cases s with
        | ok a => simp at h
        | failed => simp [pthen, hq]
    rw [List.foldl_cons]
    rw [ih (pthen q (fun b => f b r)) (by rw [hstep]; exact h)]
    exact hstep

/-- Claim C4: a failure at any stage short-circuits the rest of a then
chain.  If the chain through the continuations fns1 (the stages up to and
including the failing one) fails, then the full chain with any further
continuations fns2 appended is the very same failed outcome — no
continuation of fns2 is invoked (the trace is unchanged by them), and the
whole composition fails. -/
theorem then_short_circuits (e : PRPromise ρ α)
    (fns1 fns2 : List (α → PRPromise ρ α)) (r : ρ) (t : Trace)
    (h : (thenPR e fns1 r t).1 = Settled.failed) :
    thenPR e (fns1 ++ fns2) r t = thenPR e fns1 r t ∧
    (thenPR e (fns1 ++ fns2) r t).1 = Settled.failed := by
  have key : thenPR e (fns1 ++ fns2) r t = thenPR e fns1 r t := by
    show (List.foldl _ (e r) (fns1 ++ fns2)) t = (List.foldl _ (e r) fns1) t
    rw [List.foldl_append]
    exact foldl_pthen_failed _ fns2 r t h
  exact ⟨key, key ▸ h⟩

/-- Witness for C4: an effect that fails outright, one stage already
consumed by the empty prefix; the appended continuation never runs and
the whole chain fails. -/
theorem then_short_circuits_w :
    thenPR (fun (_ : Unit) (t : Trace) => ((Settled.failed : Settled Nat), t))
      ([] ++ [fun b (_ : Unit) (t : Trace) => (Settled.ok (b + 1), t)]) () []
      = (Settled.failed, []) := by
  have h := (then_short_circuits
    (fun (_ : Unit) (t : Trace) => ((Settled.failed : Settled Nat), t))
    [] [fun b (_ : Unit) (t : Trace) => (Settled.ok (b + 1), t)] () [] rfl).1
  simpa using h

/-- Claim C7: a success value of null (Option.none) is ordinary data to
or, map and then — in particular or (pure null) e2 succeeds with null
with e2 (universally quantified, hence never invoked) contributing
nothing — while only inside forEveryFirst a successful null is converted
into a failure that moves the search to the next alternative. -/
theorem null_is_ordinary_data :
    (∀ (e2 : PRPromise ρ (Option β)) (r : ρ) (t : Trace),
      PRP.or (PRP.pure Option.none) e2 r t = (Settled.ok Option.none, t)) ∧
    (∀ (g : Option β → Option β) (r : ρ) (t : Trace),
      PRP.map g (PRP.pure (Option.none : Option β)) r t
        = (Settled.ok (g Option.none), t)) ∧
    (∀ (f : Option β → PRPromise ρ (Option β)) (r : ρ) (t : Trace),
      thenPR (PRP.pure Option.none) [f] r t = f Option.none r t) ∧
    (∀ (f : α → PRPromise ρ (Option β)) (x : α) (xs : List α) (r : ρ) (t : Trace),
      (f x r t).1 = Settled.ok Option.none →
        forEveryFirst f (x :: xs) r t = forEveryFirst f xs r (f x r t).2) := by
  refine ⟨fun e2 r t => rfl, fun g r t => rfl, fun f r t => rfl,
    fun f x xs r t hx => ?_⟩
  rw [forEveryFirst_eq_spec, forEveryFirst_eq_spec]
  cases hf : f x r t with
  | mk s t1 =>
    rw [hf] at hx
    simp only at hx
    subst hx
    simp [forEveryFirstSpec, hf]

/-- Witness for C7 at concrete inputs: or (pure null) with a failing
alternative succeeds with null untouched, and in forEveryFirst a leaf
that succeeds with null on item 0 (logging "f") hands the search on to
the remaining items. -/
theorem null_is_ordinary_data_w :
    PRP.or (PRP.pure (Option.none : Option Nat))
      (fun (_ : Unit) (t : Trace) => (Settled.failed, t ++ ["e2"])) () []
      = (Settled.ok Option.none, []) ∧
    forEveryFirst
      (fun (n : Nat) (_ : Unit) (t : Trace) =>
        (Settled.ok (if n = 0 then Option.none else Option.some n), t ++ ["f"]))
      (0 :: [1]) () []
      = forEveryFirst
          (fun (n : Nat) (_ : Unit) (t : Trace) =>
            (Settled.ok (if n = 0 then Option.none else Option.some n), t ++ ["f"]))
          [1] () ["f"] := by
  constructor
  · exact (@null_is_ordinary_data Nat Nat Unit).1
      (fun (_ : Unit) (t : Trace) => (Settled.failed, t ++ ["e2"])) () []
  · have h := (@null_is_ordinary_data Nat Nat Unit).2.2.2
      (fun (n : Nat) (_ : Unit) (t : Trace) =>
        (Settled.ok (if n = 0 then Option.none else Option.some n), t ++ ["f"]))
      0 [1] () [] (by simp)
    simpa using h

/-- Claim C8: extendConfig c p, invoked with environment r, invokes p
with the spread of c over r, in which every field of c wins on collision
and every field absent from c is taken from r.  The caller's environment
r is a pure value in this model, so it is unchanged by construction: the
spread builds a new map and no operation of the model mutates r. -/
theorem extendConfig_overlays (c : Obj V) (p : PRPromise (Obj V) α)
    (r : Obj V) (t : Trace) :
    extendConfig c p r t = p (jsSpread r c) t ∧
    (∀ k v, c k = Option.some v → jsSpread r c k = Option.some v) ∧
    (∀ k, c k = Option.none → jsSpread r c k = r k) := by
  refine ⟨rfl, fun k v hk => ?_, fun k hk => ?_⟩ <;> simp [jsSpread, hk]

/-- Witness for C8 at the spec's concrete scenario: environment with
server "A" and owner "B", extension with owner "C"; the inner effect
observes server "A" and owner "C". -/
theorem extendConfig_overlays_w :
    extendConfig (fun k => if k = "owner" then Option.some "C" else Option.none)
      (fun env t => (Settled.ok (env "server", env "owner"), t))
      (fun k => if k = "server" then Option.some "A"
        else if k = "owner" then Option.some "B" else Option.none) []
      = (Settled.ok (Option.some "A", Option.some "C"), []) := by
  have h := (extendConfig_overlays
    (fun k => if k = "owner" then Option.some "C" else Option.none)
    (fun env t => (Settled.ok (env "server", env "owner"), t))
    (fun k => if k = "server" then Option.some "A"
      else if k = "owner" then Option.some "B" else Option.none) []).1
  rw [h]
  simp [jsSpread]

/-- Claim C9: then threads the very same environment r into every stage:
its outcome at r depends only on the behaviour at r of the head effect
and of each continuation.  Replacing the head effect and the
continuations by ones that agree at r — however much they differ at every
other environment — leaves the outcome of the whole chain unchanged, so
no stage can ever be handed an altered, extended or replaced
environment. -/
theorem then_env_invariant (e e' : PRPromise ρ α)
    (fns fns' : List (α → PRPromise ρ α)) (r : ρ)
    (he : e r = e' r)
    (hf : List.Forall₂ (fun f f' => ∀ b, f b r = f' b r) fns fns') :
    thenPR e fns r = thenPR e' fns' r := by
  have main : ∀ (l l' : List (α → PRPromise ρ α)),
      List.Forall₂ (fun f f' => ∀ b, f b r = f' b r) l l' →
      ∀ (q : Promise α),
        List.foldl (fun accPr f => pthen accPr (fun b => f b r)) q l
          = List.foldl (fun accPr f => pthen accPr (fun b => f b r)) q l' := by
    intro l l' hrel
    induction hrel with
    | nil => intro q; rfl
    | @cons f f' l1 l2 hff htl ih =>
      intro q
      have hq : pthen q (fun b => f b r) = pthen q (fun b => f' b r) := by
        have hfun : (fun b => f b r) = fun b => f' b r := funext hff
        rw [hfun]
      rw [List.foldl_cons, List.foldl_cons, hq]
      exact ih (pthen q (fun b => f' b r))
  show List.foldl _ (e r) fns = List.foldl _ (e' r) fns'
  rw [he]
  exact main fns fns' hf (e' r)

/-- Witness for C9: head effects and continuations that agree at
environment 0 but differ elsewhere (the replacement continuation fails
at every nonzero environment) give chains with identical behaviour at
environment 0. -/
theorem then_env_invariant_w :
    thenPR (fun (r' : Nat) (t : Trace) => (Settled.ok r', t))
      [fun b (r' : Nat) (t : Trace) => (Settled.ok (b + r'), t)] 0
      = thenPR (fun (r' : Nat) (t : Trace) => (Settled.ok (r' + 0), t))
          [fun b (r' : Nat) (t : Trace) =>
            (if r' = 0 then (Settled.ok b, t) else (Settled.failed, t))] 0 := by
  apply then_env_invariant
  · funext t
    simp
  · exact List.Forall₂.cons (fun b => by funext t; simp) List.Forall₂.nil

end PRP
